import Mathlib

/-!
Verification of the TypeScript declaration-file emitter
(`compiler-core/src/javascript/typescript.rs`).

The development shallowly embeds the emitter: the internal `Type` /
`TypeVar` representation, the generic-usage analyzer, the type-variable
namer, identifier safety, the recursive type translator, the per-statement
declaration emitter and the import-path resolver.  The abstract pretty
printing `Document` tree is produced by an external engine; it is modelled
here as a plain inductive with structural equality, which is the right
notion for all properties below (they are about which document is built,
never about final text layout).
-/

/-- Modelled from the spec: the abstract output document tree of the
external pretty-printing engine (`pretty.rs` is outside the core).  The
constructors mirror the operations the emitter uses: string atoms, line
breaks, soft breaks, nesting, grouping and juxtaposition.  `docvec!` and
`concat` become right-nested `app`s via `concatD`. -/
inductive Doc where
  | nil
  | str (s : String)
  | line (n : Nat)
  | brk (broken unbroken : String)
  | nest (indent : Nat) (d : Doc)
  | group (d : Doc)
  | app (d1 d2 : Doc)
  deriving DecidableEq, Repr

/-- Modelled from the spec: `Document::append` of the external engine. -/
def Doc.appendD (d1 d2 : Doc) : Doc := Doc.app d1 d2

/-- Modelled from the spec: `concat` / `docvec!` of the external engine,
folding a list of documents into one. -/
def concatD (ds : List Doc) : Doc := ds.foldr Doc.app Doc.nil

/-- Modelled from the spec: the `INDENT` layout constant of the sibling
javascript module. -/
def INDENT : Nat := 2

/-- Modelled from the spec: `surround(open, close)` of the external engine. -/
def Doc.surroundD (opener closer : String) (d : Doc) : Doc :=
  Doc.app (Doc.app (Doc.str opener) d) (Doc.str closer)

/-- `wrap_generic_args`: a bracketed, comma separated generic-argument
list (from `typescript.rs`). -/
def wrap_generic_args (args : List Doc) : Doc :=
  Doc.group
    (Doc.surroundD "<" ">"
      (Doc.app
        (Doc.nest INDENT
          (Doc.app (Doc.brk "" "") (concatD (List.intersperse (Doc.brk "," ", ") args))))
        (Doc.brk "" "")))

/-- Modelled from the spec: `wrap_args` of the sibling javascript module, a
parenthesized, comma separated parameter list. -/
def wrap_args (args : List Doc) : Doc :=
  Doc.group
    (Doc.surroundD "(" ")"
      (Doc.app
        (Doc.nest INDENT
          (Doc.app (Doc.brk "" "") (concatD (List.intersperse (Doc.brk "," ", ") args))))
        (Doc.brk "," "")))

/-- `tuple`: a Gleam tuple printed as a TypeScript fixed-length array type
(from `typescript.rs`). -/
def tupleDoc (elems : List Doc) : Doc :=
  Doc.group
    (Doc.surroundD "[" "]"
      (Doc.app
        (Doc.nest INDENT
          (Doc.app (Doc.brk "" "") (concatD (List.intersperse (Doc.brk "," ", ") elems))))
        (Doc.brk "" "")))

/-- The character-list body of `id_to_type_var` for ids at least 26: the
`while last_char >= 26` loop pushes base-26 digit characters (`+65`), then
one final character with offset `+64`; the Rust code reverses afterwards. -/
def loopChars (n : Nat) : List Char :=
  if h : 26 ≤ n then
    Char.ofNat (n % 26 + 65) :: loopChars (n / 26)
  else
    [Char.ofNat (n % 26 + 64)]
termination_by n
decreasing_by exact Nat.div_lt_self (by omega) (by omega)

/-- `id_to_type_var` as a string: unification-variable id to surface name
(`A`, `B`, ..., `Z`, `AA`, ...), mirroring `typescript.rs`. -/
def idToTypeVarS (id : Nat) : String :=
  if id < 26 then String.mk [Char.ofNat (id % 26 + 65)]
  else String.mk (loopChars id).reverse

/-- `id_to_type_var`: the namer as a document (`Document::String`). -/
def id_to_type_var (id : Nat) : Doc := Doc.str (idToTypeVarS id)

/-- Lookup in the generic-usage table (the table is a `HashMap<u64, u64>`
in Rust; its contents are modelled as an association list with first-insertion
key order as the canonical enumeration, the lookup itself is order blind). -/
def lookupUsage : List (Nat × Nat) → Nat → Option Nat
  | [], _ => none
  | (k, v) :: rest, id => if k = id then some v else lookupUsage rest id

/-- `ids.entry(*id).or_insert(0); *count += 1`: increment the count of a key,
inserting it with count 1 when absent. -/
def bump : List (Nat × Nat) → Nat → List (Nat × Nat)
  | [], id => [(id, 1)]
  | (k, v) :: rest, id => if k = id then (k, v + 1) :: rest else (k, v) :: bump rest id

mutual

/-- The internal `Type` representation (`type_.rs` is outside `src/`; the
variants and fields are the ones given in the spec data model and consumed
by `typescript.rs`). -/
inductive Ty where
  | var (type_ : TyVar)
  | app (name : String) (module : List String) (args : List Ty)
  | fn (args : List Ty) (retrn : Ty)
  | tuple (elems : List Ty)

/-- The `TypeVar` cell contents: an unresolved generic, an unbound
placeholder, or a transparent link to another type. -/
inductive TyVar where
  | generic (id : Nat)
  | unbound (id : Nat)
  | link (type_ : Ty)

end

mutual

/-- `generic_ids` on a type: count every reachable `Generic{id}`. -/
def genericIdsT : Ty → List (Nat × Nat) → List (Nat × Nat)
  | .var tv, ids => genericIdsV tv ids
  | .app _ _ args, ids => genericIdsL args ids
  | .fn args retrn, ids => genericIdsT retrn (genericIdsL args ids)
  | .tuple elems, ids => genericIdsL elems ids

/-- `generic_ids` on a type-variable cell. -/
def genericIdsV : TyVar → List (Nat × Nat) → List (Nat × Nat)
  | .generic id, ids => bump ids id
  | .unbound _, ids => ids
  | .link t, ids => genericIdsT t ids

/-- `generic_ids` folded over the argument list of an `App`, `Fn` or
`Tuple` node. -/
def genericIdsL : List Ty → List (Nat × Nat) → List (Nat × Nat)
  | [], ids => ids
  | t :: ts, ids => genericIdsL ts (genericIdsT t ids)

end

/-- `collect_generic_usages`: fold `generic_ids` over an ordered collection
of types starting from an initial table. -/
def collect_generic_usages (ids : List (Nat × Nat)) (types : List Ty) : List (Nat × Nat) :=
  genericIdsL types ids

/-- The fixed reserved-word list of `ts_safe_type_name`. -/
def tsReservedWords : List String :=
  ["any", "boolean", "constructor", "declare", "get", "module", "require",
   "number", "set", "string", "symbol", "type", "from", "of"]

/-- Modelled from the spec: the fixed reserved-word / ambient-global list of
the sibling javascript module's identifier escaping (`javascript.rs` is
outside `src/`; spec section 4.5). -/
def jsReservedWords : List String :=
  ["await", "arguments", "break", "case", "catch", "class", "const",
   "continue", "debugger", "default", "delete", "do", "else", "enum",
   "export", "extends", "eval", "false", "finally", "for", "function",
   "get", "if", "implements", "import", "in", "instanceof", "interface",
   "let", "new", "null", "package", "private", "protected", "public",
   "return", "static", "super", "switch", "this", "throw", "true", "try",
   "typeof", "var", "void", "while", "with", "yield", "undefined", "then"]

/-- Modelled from the spec: `maybe_escape_identifier_string` of the sibling
javascript module; a reserved word gets the fixed `$` suffix, any other
name is returned unchanged (spec section 4.5). -/
def maybe_escape_identifier_string (w : String) : String :=
  if w ∈ jsReservedWords then w ++ "$" else w

/-- Modelled from the spec: `maybe_escape_identifier_doc`, the document
form of the identifier escaping. -/
def maybe_escape_identifier_doc (w : String) : Doc :=
  Doc.str (maybe_escape_identifier_string w)

/-- `ts_safe_type_name`: TypeScript type-name safety; a clash with the fixed
reserved list gets a `_` appended, otherwise the general identifier
escaping applies. -/
def ts_safe_type_name (name : String) : String :=
  if name ∈ tsReservedWords then name ++ "_" else maybe_escape_identifier_string name

/-- Modelled from the spec: `to_upper_camel_case` of the external `heck`
crate; words split on separator characters, each capitalized and joined. -/
def toUpperCamelCase (s : String) : String :=
  String.join
    (((s.split (fun c => c = '_' || c = '-')).filter (fun w => w ≠ "")).map
      (fun w =>
        match w.data with
        | [] => ""
        | c :: rest => String.mk (c.toUpper :: rest.map Char.toLower)))

/-- `module_name`: the namespace alias body, the case-converted
concatenation of the module path segments. -/
def module_name (parts : List String) : String :=
  String.join (parts.map toUpperCamelCase)

/-- The set of builtin prelude type names dispatched by
`print_prelude_type`; any other name hits the panic arm. -/
def builtinNames : List String :=
  ["Nil", "Int", "Float", "UtfCodepoint", "String", "Bool", "BitString",
   "List", "Result"]

mutual

/-- `do_print`: the recursive type translator.  A `none` result models the
panic of the prelude dispatcher on an unknown builtin name; every other
path is total.  `cm` is the printer's `current_module`. -/
def do_print (cm : List String) : Ty → Option (List (Nat × Nat)) → Option Doc
  | .var tv, gus => print_var cm tv gus
  | .app name module args, gus =>
    if module.isEmpty then print_prelude_type cm name args gus
    else print_type_app cm name args module gus
  | .fn args retrn, gus => print_fn cm args retrn gus
  | .tuple elems, gus =>
    match doPrintList cm elems gus with
    | some ds => some (tupleDoc ds)
    | none => none
termination_by t gus => (sizeOf t, 0)

/-- `print_var`: a generic is looked up in the usage table when one is
supplied (count 0 prints the empty document, count 1 prints `any`, anything
else the namer name); without a table the namer is always used; an unbound
variable defensively prints `any`; a link is followed transparently. -/
def print_var (cm : List String) : TyVar → Option (List (Nat × Nat)) → Option Doc
  | .generic id, gus =>
    match gus with
    | some usages =>
      match lookupUsage usages id with
      | some 0 => some Doc.nil
      | some 1 => some (Doc.str "any")
      | _ => some (id_to_type_var id)
    | none => some (id_to_type_var id)
  | .unbound _, _ => some (Doc.str "any")
  | .link t, gus => do_print cm t gus
termination_by tv gus => (sizeOf tv, 0)

/-- `print_prelude_type`: the fixed builtin dispatch table; the final
fall-through arm models the Rust panic as `none`. -/
def print_prelude_type (cm : List String) (name : String) (args : List Ty)
    (gus : Option (List (Nat × Nat))) : Option Doc :=
  if name = "Nil" then some (Doc.str "null")
  else if name = "Int" ∨ name = "Float" then some (Doc.str "number")
  else if name = "UtfCodepoint" then some (Doc.str "$Gleam.UtfCodepoint")
  else if name = "String" then some (Doc.str "string")
  else if name = "Bool" then some (Doc.str "boolean")
  else if name = "BitString" then some (Doc.str "$Gleam.BitString")
  else if name = "List" then
    match doPrintList cm args gus with
    | some ds => some (Doc.app (Doc.str "$Gleam.List") (wrap_generic_args ds))
    | none => none
  else if name = "Result" then
    match doPrintList cm args gus with
    | some ds => some (Doc.app (Doc.str "$Gleam.Result") (wrap_generic_args ds))
    | none => none
  else none
termination_by (sizeOf args, 1)

/-- `print_type_app`: a user-defined named type; camel-cased, safety
escaped, `$`-suffixed, namespace-prefixed when foreign, generic arguments
appended when present. -/
def print_type_app (cm : List String) (name : String) (args : List Ty)
    (module : List String) (gus : Option (List (Nat × Nat))) : Option Doc :=
  let n := ts_safe_type_name (toUpperCamelCase name) ++ "$"
  let nameDoc :=
    if module = cm then Doc.str n
    else concatD [Doc.str ("$" ++ module_name module), Doc.str ".", Doc.str n]
  if args.isEmpty then some nameDoc
  else
    match doPrintList cm args gus with
    | some ds => some (Doc.app nameDoc (wrap_generic_args ds))
    | none => none
termination_by (sizeOf args, 1)

/-- `print_fn`: an anonymous function type with positionally synthesized
parameter names. -/
def print_fn (cm : List String) (args : List Ty) (retrn : Ty)
    (gus : Option (List (Nat × Nat))) : Option Doc :=
  match doPrintList cm args gus, do_print cm retrn gus with
  | some argDocs, some retDoc =>
    some (concatD
      [wrap_args (argDocs.enum.map
          (fun p => concatD [Doc.str "x", Doc.str (toString p.1), Doc.str ": ", p.2])),
       Doc.str " => ", retDoc])
  | _, _ => none
termination_by (sizeOf args + sizeOf retrn, 1)
decreasing_by
  · apply Prod.Lex.left
    have h1 : 0 < sizeOf retrn := by cases retrn <;> simp_arith
    omega
  · apply Prod.Lex.left
    have h1 : 0 < sizeOf args := by cases args <;> simp_arith
    omega

/-- The translator mapped over an argument list, propagating the panic. -/
def doPrintList (cm : List String) : List Ty → Option (List (Nat × Nat)) → Option (List Doc)
  | [], _ => some []
  | t :: ts, gus =>
    match do_print cm t gus, doPrintList cm ts gus with
    | some d, some ds => some (d :: ds)
    | _, _ => none
termination_by l gus => (sizeOf l, 0)

end

/-- `print`: translate a type with no usage table. -/
def printT (cm : List String) (t : Ty) : Option Doc := do_print cm t none

/-- `print_with_generic_usages`: translate a type against a usage table. -/
def print_with_generic_usages (cm : List String) (t : Ty)
    (gus : List (Nat × Nat)) : Option Doc := do_print cm t (some gus)

/-- Sequence a list of optional documents, propagating a panic. -/
def optList : List (Option Doc) → Option (List Doc)
  | [] => some []
  | none :: _ => none
  | some d :: rest =>
    match optList rest with
    | some ds => some (d :: ds)
    | none => none

/-- `name_with_generics`: a name followed by the bracketed namer-rendered
list of every generic id found across the given types.  The Rust code
enumerates the `HashMap` produced by `collect_generic_usages`; the
enumeration used here is the canonical first-insertion key order.  (The
real table's iteration order is arbitrary; see the ordered function
variants below.) -/
def name_with_generics (name : Doc) (types : List Ty) : Doc :=
  let generic_usages := collect_generic_usages [] types
  let generic_names := generic_usages.map (fun p => id_to_type_var p.1)
  Doc.app name (if generic_names.isEmpty then Doc.nil else wrap_generic_args generic_names)

/-- A typed function argument: `typescript.rs` consumes only
`get_variable_name()` (a pattern-derived name, when any) and the type
(`ast.rs` is outside `src/`; fields follow the spec data model). -/
structure TypedArg where
  varName : Option String
  type_ : Ty

/-- An external-function argument: an optional label plus the type. -/
structure ExternalFnArg where
  label : Option String
  type_ : Ty

/-- A record-constructor argument: an optional user label plus the type. -/
structure RecordConstructorArg where
  label : Option String
  type_ : Ty

/-- A record constructor of a custom type: a name and its arguments. -/
structure RecordConstructor where
  name : String
  arguments : List RecordConstructorArg

/-- The typed top-level statement variants consumed by the emitter
(`ast.rs` is outside `src/`; the variants and the fields used follow the
spec data model; a module constant is carried by the only part of its
value the emitter reads, the value's type). -/
inductive Statement where
  | Fn (isPublic : Bool) (name : String) (arguments : List TypedArg) (return_type : Ty)
  | TypeAlias (isPublic : Bool) (aliasName : String) (type_ : Ty)
  | CustomType (isPublic : Bool) (name : String) (typed_parameters : List Ty)
      (constructors : List RecordConstructor) (opaq : Bool)
  | ExternalType (isPublic : Bool) (name : String) (arguments : List String)
  | ModuleConstant (isPublic : Bool) (name : String) (valueType : Ty)
  | ExternalFn (isPublic : Bool) (name : String) (arguments : List ExternalFnArg) (return_type : Ty)
  | Import (module : List String) (package : String)

/-- The generic-parameter name list of a function declaration: the ids with
more than one usage, rendered by the namer, in the order the usage table is
enumerated. -/
def fnGenericNames (usageOrder : List (Nat × Nat)) : List Doc :=
  (usageOrder.filter (fun p => 1 < p.2)).map (fun p => id_to_type_var p.1)

/-- One printed parameter of `module_function`: the pattern-derived name
(escaped) or a positional `x{i}` fallback, annotated with the type printed
against the usage table. -/
def fnArgDoc (cm : List String) (usageOrder : List (Nat × Nat)) (p : Nat × TypedArg) : Option Doc :=
  match p.2.varName with
  | none =>
    match do_print cm p.2.type_ (some usageOrder) with
    | some d => some (concatD [Doc.str "x", Doc.str (toString p.1), Doc.str ": ", d])
    | none => none
  | some nm =>
    match do_print cm p.2.type_ (some usageOrder) with
    | some d => some (concatD [maybe_escape_identifier_doc nm, Doc.str ": ", d])
    | none => none

/-- `module_function`, parametrized by the enumeration order of the usage
`HashMap` (whose Rust iteration order is arbitrary): collect generic
usages over `[return type] ++ argument types`, keep the ids used more than
once as the generic-parameter list, print arguments and return type
against the table. -/
def module_function_ordered (cm : List String) (usageOrder : List (Nat × Nat))
    (name : String) (args : List TypedArg) (return_type : Ty) : Option Doc :=
  let generic_names := fnGenericNames usageOrder
  match optList (args.enum.map (fnArgDoc cm usageOrder)),
        do_print cm return_type (some usageOrder) with
  | some argDocs, some retDoc =>
    some (concatD
      [Doc.str "export function ", maybe_escape_identifier_doc name,
       (if generic_names.isEmpty then Doc.nil else wrap_generic_args generic_names),
       wrap_args argDocs, Doc.str ": ", retDoc, Doc.str ";"])
  | _, _ => none

/-- `module_function` with the canonical (first-insertion order) table
enumeration. -/
def module_function (cm : List String) (name : String) (args : List TypedArg)
    (return_type : Ty) : Option Doc :=
  module_function_ordered cm
    (collect_generic_usages [] (return_type :: args.map (fun a => a.type_)))
    name args return_type

/-- One printed parameter of `external_function`: the foreign signature's
label (escaped) or a positional `x{i}` fallback. -/
def externalFnArgDoc (cm : List String) (usageOrder : List (Nat × Nat))
    (p : Nat × ExternalFnArg) : Option Doc :=
  match p.2.label with
  | none =>
    match do_print cm p.2.type_ (some usageOrder) with
    | some d => some (concatD [Doc.str "x", Doc.str (toString p.1), Doc.str ": ", d])
    | none => none
  | some nm =>
    match do_print cm p.2.type_ (some usageOrder) with
    | some d => some (concatD [maybe_escape_identifier_doc nm, Doc.str ": ", d])
    | none => none

/-- `external_function`, parametrized by the usage-table enumeration order
exactly like `module_function_ordered`. -/
def external_function_ordered (cm : List String) (usageOrder : List (Nat × Nat))
    (name : String) (args : List ExternalFnArg) (return_type : Ty) : Option Doc :=
  let generic_names := fnGenericNames usageOrder
  match optList (args.enum.map (externalFnArgDoc cm usageOrder)),
        do_print cm return_type (some usageOrder) with
  | some argDocs, some retDoc =>
    some (concatD
      [Doc.str "export function ", maybe_escape_identifier_doc name,
       (if generic_names.isEmpty then Doc.nil else wrap_generic_args generic_names),
       wrap_args argDocs, Doc.str ": ", retDoc, Doc.str ";"])
  | _, _ => none

/-- `external_function` with the canonical table enumeration. -/
def external_function (cm : List String) (name : String) (args : List ExternalFnArg)
    (return_type : Ty) : Option Doc :=
  external_function_ordered cm
    (collect_generic_usages [] (return_type :: args.map (fun a => a.type_)))
    name args return_type

/-- `external_type`: an opaque foreign type of the given arity, bound to
`any` for every instantiation. -/
def external_type (name : String) (args : List String) : Option Doc :=
  let doc_name := Doc.str (ts_safe_type_name name ++ "$")
  if args.isEmpty then
    some (concatD [Doc.str "export type ", doc_name, Doc.str " = any;"])
  else
    some (concatD
      [Doc.str "export type ", doc_name,
       wrap_generic_args (args.map (fun x => Doc.str (toUpperCamelCase x))),
       Doc.str " = any;"])

/-- `type_alias`: the alias name (safety escaped) bound to the translated
aliased type, printed without a usage table. -/
def type_alias (cm : List String) (aliasName : String) (type_ : Ty) : Option Doc :=
  match do_print cm type_ none with
  | some d =>
    some (concatD
      [Doc.str "export type ", Doc.str (ts_safe_type_name aliasName), Doc.str " = ", d, Doc.str ";"])
  | none => none

/-- `module_constant`: the constant's name (escaped) bound to its value's
type, printed without a usage table. -/
def module_constant (cm : List String) (name : String) (valueType : Ty) : Option Doc :=
  match do_print cm valueType none with
  | some d =>
    some (concatD
      [Doc.str "export const ", maybe_escape_identifier_doc name, Doc.str ": ", d, Doc.str ";"])
  | none => none

/-- The head of a constructor class declaration: the optional export
marker, the class keyword, the constructor name with its own generics, and
the extends clause marking the runtime base type. -/
def recordDefinitionHead (ctor : RecordConstructor) (opaq : Bool) : Doc :=
  concatD
    [(if opaq then Doc.nil else Doc.str "export "),
     Doc.str "class ",
     name_with_generics (maybe_escape_identifier_doc ctor.name)
       (ctor.arguments.map (fun a => a.type_)),
     Doc.str " extends $Gleam.CustomType \x7b"]

/-- One printed construction-signature parameter: the label (escaped) or
the bare positional index. -/
def recordCtorParam (cm : List String) (p : Nat × RecordConstructorArg) : Option Doc :=
  let nm := match p.2.label with
    | some s => maybe_escape_identifier_doc s
    | none => Doc.str (toString p.1)
  match do_print cm p.2.type_ none with
  | some d => some (concatD [nm, Doc.str ": ", d])
  | none => none

/-- One printed class field: the label (escaped) or the `x{i}` positional
field name. -/
def recordFieldDoc (cm : List String) (p : Nat × RecordConstructorArg) : Option Doc :=
  let nm := match p.2.label with
    | some s => maybe_escape_identifier_doc s
    | none => Doc.str ("x" ++ toString p.1)
  match do_print cm p.2.type_ none with
  | some d => some (concatD [nm, Doc.str ": ", d, Doc.str ";"])
  | none => none

/-- `record_definition`: the class-like declaration for one constructor;
marks the prelude used, emits the head, and, when the constructor has
arguments, a construction signature plus one field per argument. -/
def record_definition (cm : List String) (ctor : RecordConstructor) (opaq : Bool) : Option Doc :=
  let head := recordDefinitionHead ctor opaq
  if ctor.arguments.isEmpty then some (Doc.app head (Doc.str "\x7d"))
  else
    match optList (ctor.arguments.enum.map (recordCtorParam cm)),
          optList (ctor.arguments.enum.map (recordFieldDoc cm)) with
    | some params, some fields =>
      some (concatD
        [head,
         Doc.nest INDENT (concatD
           [Doc.line 1, Doc.str "constructor", wrap_args params, Doc.str ";",
            Doc.line 1, Doc.line 1,
            concatD (List.intersperse (Doc.line 1) fields)]),
         Doc.line 1, Doc.str "\x7d"])
    | _, _ => none

/-- `custom_type_definition`: one class declaration per constructor plus
the trailing union declaration named `{name}$` (unescaped), equal to the
alternation of the constructors' generic-applied names. -/
def custom_type_definition (cm : List String) (name : String) (typed_parameters : List Ty)
    (constructors : List RecordConstructor) (opaq : Bool) : List (Option Doc) :=
  constructors.map (fun c => record_definition cm c opaq) ++
  [some (concatD
    [Doc.str "export type ",
     name_with_generics (Doc.str (name ++ "$")) typed_parameters,
     Doc.str " = ",
     concatD (List.intersperse (Doc.brk "| " " | ")
       (constructors.map (fun x =>
         name_with_generics (maybe_escape_identifier_doc x.name)
           (x.arguments.map (fun a => a.type_))))),
     Doc.str ";"])]

/-- `statement`: visibility filtering and dispatch to the per-kind
emitters; a non-public statement of any kind, and every import statement,
yields no output declarations. -/
def statementDecls (cm : List String) : Statement → List (Option Doc)
  | .TypeAlias true aliasName type_ => [type_alias cm aliasName type_]
  | .TypeAlias false _ _ => []
  | .ExternalType true name arguments => [external_type name arguments]
  | .ExternalType false _ _ => []
  | .Import _ _ => []
  | .CustomType true name typed_parameters constructors opaq =>
    custom_type_definition cm name typed_parameters constructors opaq
  | .CustomType false _ _ _ _ => []
  | .ModuleConstant true name valueType => [module_constant cm name valueType]
  | .ModuleConstant false _ _ => []
  | .Fn true name arguments return_type => [module_function cm name arguments return_type]
  | .Fn false _ _ _ => []
  | .ExternalFn true name arguments return_type =>
    [external_function cm name arguments return_type]
  | .ExternalFn false _ _ _ => []

mutual

/-- Whether printing a type reaches a branch of `print_prelude_type` that
sets the `prelude_used` tracker flag (`UtfCodepoint`, `BitString`, `List`,
`Result`); this is the per-type contribution to the flag, factored out of
the stateful printer. -/
def typePreludeUsedT : Ty → Bool
  | .var tv => typePreludeUsedV tv
  | .app name module args =>
    if module.isEmpty then
      if name = "UtfCodepoint" ∨ name = "BitString" ∨ name = "List" ∨ name = "Result" then true
      else false
    else typePreludeUsedL args
  | .fn args retrn => typePreludeUsedL args || typePreludeUsedT retrn
  | .tuple elems => typePreludeUsedL elems

/-- Flag contribution of a type-variable cell. -/
def typePreludeUsedV : TyVar → Bool
  | .generic _ => false
  | .unbound _ => false
  | .link t => typePreludeUsedT t

/-- Flag contribution of a printed argument list. -/
def typePreludeUsedL : List Ty → Bool
  | [] => false
  | t :: ts => typePreludeUsedT t || typePreludeUsedL ts

end

/-- The `prelude_used` flag contribution of emitting one statement:
non-public statements and imports print nothing and contribute nothing;
`record_definition` calls `set_prelude_used` unconditionally, so a public
custom type with at least one constructor always contributes. -/
def statementPreludeContrib : Statement → Bool
  | .TypeAlias true _ type_ => typePreludeUsedT type_
  | .CustomType true _ _ constructors _ => !constructors.isEmpty
  | .ModuleConstant true _ valueType => typePreludeUsedT valueType
  | .Fn true _ arguments return_type =>
    typePreludeUsedT return_type || arguments.any (fun a => typePreludeUsedT a.type_)
  | .ExternalFn true _ arguments return_type =>
    typePreludeUsedT return_type || arguments.any (fun a => typePreludeUsedT a.type_)
  | _ => false

/-- Emission of one statement threading the printer's `prelude_used` flag:
the produced declarations plus the updated flag. -/
def statementRun (cm : List String) (preludeUsed : Bool) (s : Statement) :
    List (Option Doc) × Bool :=
  (statementDecls cm s, preludeUsed || statementPreludeContrib s)

/-- Modelled from the spec: the import registry of the sibling import
module records, in order, each `register_module(path, [alias], [])` call
as a path together with its namespace aliases. -/
def Imports := List (String × List String)

/-- `"../".repeat(n)` and friends: a string repeated n times. -/
def strRepeat (s : String) : Nat → String
  | 0 => ""
  | n + 1 => s ++ strRepeat s n

/-- `import_path`: the on-disk relative path from the current module to a
referenced module's declaration file; same-package (or empty-package)
references walk up one level per current-module segment beyond the first,
cross-package references additionally walk out of the dependency root and
into the package's `dist` directory. -/
def import_path (currentPackage : String) (currentModule : List String)
    (package : String) (module : List String) : String :=
  let path := String.intercalate "/" module
  if package = currentPackage ∨ package = "" then
    match currentModule.length with
    | 1 => "./" ++ path ++ ".d.ts"
    | _ => strRepeat "../" (currentModule.length - 1) ++ path ++ ".d.ts"
  else
    strRepeat "../" (currentModule.length + 1) ++ package ++ "/dist/" ++ path ++ ".d.ts"

/-- `register_import`: register the referenced module under its `$`-prefixed
namespace alias at its computed path. -/
def register_import (currentPackage : String) (currentModule : List String)
    (imports : Imports) (package : String) (module : List String) : Imports :=
  List.append imports
    [(import_path currentPackage currentModule package module, ["$" ++ module_name module])]

/-- One step of `collect_imports`: only `Import` statements touch the
registry. -/
def collect_imports_step (currentPackage : String) (currentModule : List String)
    (imports : Imports) (s : Statement) : Imports :=
  match s with
  | .Import module package => register_import currentPackage currentModule imports package module
  | _ => imports

/-- `collect_imports`: fold the registry over the module's statements. -/
def collect_imports (currentPackage : String) (currentModule : List String)
    (statements : List Statement) : Imports :=
  statements.foldl (collect_imports_step currentPackage currentModule) []

mutual

/-- Every `App` type with an empty module path occurring anywhere inside
the type names one of the fixed builtin prelude types: the precondition
under which the prelude dispatcher's failure arm is unreachable. -/
def builtinsOkT : Ty → Bool
  | .var tv => builtinsOkV tv
  | .app name module args =>
    (if module.isEmpty then decide (name ∈ builtinNames) else true) && builtinsOkL args
  | .fn args retrn => builtinsOkL args && builtinsOkT retrn
  | .tuple elems => builtinsOkL elems

/-- Builtin-name wellformedness of a type-variable cell. -/
def builtinsOkV : TyVar → Bool
  | .generic _ => true
  | .unbound _ => true
  | .link t => builtinsOkT t

/-- Builtin-name wellformedness of every type in a list. -/
def builtinsOkL : List Ty → Bool
  | [] => true
  | t :: ts => builtinsOkT t && builtinsOkL ts

end

/-- Decoder for the namer's character lists: the value a push-ordered
character list of `loopChars` denotes (low digits with offset 65 first, the
final character with offset 64). -/
def varVal : List Char → Nat
  | [] => 0
  | [c] => c.toNat - 64
  | c :: rest => (c.toNat - 65) + 26 * varVal rest

theorem char_toNat_of_le (k : Nat) (h1 : 64 ≤ k) (h2 : k ≤ 90) :
    (Char.ofNat k).toNat = k := by
  interval_cases k <;> decide

theorem loopChars_ne_nil (n : Nat) : loopChars n ≠ [] := by
  rw [loopChars]
  split <;> simp

theorem loopChars_val (n : Nat) : varVal (loopChars n) = n := by
  induction n using Nat.strong_induction_on with
  | _ n ih =>
    rw [loopChars]
    split
    · rename_i h
      have hrec : varVal (loopChars (n / 26)) = n / 26 :=
        ih (n / 26) (Nat.div_lt_self (by omega) (by omega))
      have hchar : (Char.ofNat (n % 26 + 65)).toNat = n % 26 + 65 :=
        char_toNat_of_le _ (by omega) (by have := Nat.mod_lt n (show 0 < 26 by omega); omega)
      rcases hl : loopChars (n / 26) with _ | ⟨c, rest⟩
      · exact absurd hl (loopChars_ne_nil _)
      · rw [hl] at hrec
        have hv : varVal (Char.ofNat (n % 26 + 65) :: c :: rest) =
            ((Char.ofNat (n % 26 + 65)).toNat - 65) + 26 * varVal (c :: rest) := rfl
        rw [hv, hrec, hchar]
        omega
    · rename_i h
      have hchar : (Char.ofNat (n % 26 + 64)).toNat = n % 26 + 64 :=
        char_toNat_of_le _ (by omega) (by have := Nat.mod_lt n (show 0 < 26 by omega); omega)
      have hv : varVal [Char.ofNat (n % 26 + 64)] = (Char.ofNat (n % 26 + 64)).toNat - 64 := rfl
      rw [hv, hchar]
      omega

theorem loopChars_inj {m n : Nat} (h : loopChars m = loopChars n) : m = n := by
  have hm := loopChars_val m
  rw [h, loopChars_val n] at hm
  omega

theorem loopChars_length_ge_two {n : Nat} (h : 26 ≤ n) : 2 ≤ (loopChars n).length := by
  rw [loopChars, dif_pos h]
  rcases hl : loopChars (n / 26) with _ | ⟨c, rest⟩
  · exact absurd hl (loopChars_ne_nil _)
  · simp

theorem loopChars_chars_le (n : Nat) : ∀ c ∈ loopChars n, c.toNat ≤ 90 := by
  induction n using Nat.strong_induction_on with
  | _ n ih =>
    intro c hc
    rw [loopChars] at hc
    by_cases h : 26 ≤ n
    · rw [dif_pos h] at hc
      rcases List.mem_cons.mp hc with rfl | hmem
      · have : (Char.ofNat (n % 26 + 65)).toNat = n % 26 + 65 :=
          char_toNat_of_le _ (by omega) (by have := Nat.mod_lt n (show 0 < 26 by omega); omega)
        omega
      · exact ih (n / 26) (Nat.div_lt_self (by omega) (by omega)) c hmem
    · rw [dif_neg h] at hc
      rcases List.mem_singleton.mp hc with rfl
      have : (Char.ofNat (n % 26 + 64)).toNat = n % 26 + 64 :=
        char_toNat_of_le _ (by omega) (by have := Nat.mod_lt n (show 0 < 26 by omega); omega)
      omega

theorem idToTypeVarS_chars_le (id : Nat) : ∀ c ∈ (idToTypeVarS id).data, c.toNat ≤ 90 := by
  intro c hc
  rw [idToTypeVarS] at hc
  by_cases h : id < 26
  · rw [if_pos h] at hc
    rcases List.mem_singleton.mp hc with rfl
    have : (Char.ofNat (id % 26 + 65)).toNat = id % 26 + 65 :=
      char_toNat_of_le _ (by omega) (by have := Nat.mod_lt id (show 0 < 26 by omega); omega)
    omega
  · rw [if_neg h] at hc
    exact loopChars_chars_le id c (List.mem_reverse.mp hc)

theorem idToTypeVarS_inj {i j : Nat} (h : idToTypeVarS i = idToTypeVarS j) : i = j := by
  have hdata : (idToTypeVarS i).data = (idToTypeVarS j).data := by rw [h]
  rw [idToTypeVarS, idToTypeVarS] at hdata
  by_cases hi : i < 26 <;> by_cases hj : j < 26
  · rw [if_pos hi, if_pos hj] at hdata
    have hdata2 : [Char.ofNat (i % 26 + 65)] = [Char.ofNat (j % 26 + 65)] := hdata
    simp only [List.cons.injEq, and_true] at hdata2
    have h1 : (Char.ofNat (i % 26 + 65)).toNat = i % 26 + 65 :=
      char_toNat_of_le _ (by omega) (by have := Nat.mod_lt i (show 0 < 26 by omega); omega)
    have h2 : (Char.ofNat (j % 26 + 65)).toNat = j % 26 + 65 :=
      char_toNat_of_le _ (by omega) (by have := Nat.mod_lt j (show 0 < 26 by omega); omega)
    have : (Char.ofNat (i % 26 + 65)).toNat = (Char.ofNat (j % 26 + 65)).toNat := by rw [hdata2]
    omega
  · rw [if_pos hi, if_neg hj] at hdata
    have hlen : ((String.mk [Char.ofNat (i % 26 + 65)]).data).length =
        ((String.mk (loopChars j).reverse).data).length := by rw [hdata]
    have := loopChars_length_ge_two (show 26 ≤ j by omega)
    simp at hlen
    omega
  · rw [if_neg hi, if_pos hj] at hdata
    have hlen : ((String.mk (loopChars i).reverse).data).length =
        ((String.mk [Char.ofNat (j % 26 + 65)]).data).length := by rw [hdata]
    have := loopChars_length_ge_two (show 26 ≤ i by omega)
    simp at hlen
    omega
  · rw [if_neg hi, if_neg hj] at hdata
    have hdata2 : (loopChars i).reverse = (loopChars j).reverse := hdata
    exact loopChars_inj (List.reverse_injective hdata2)

theorem idToTypeVarS_ne_any (id : Nat) : idToTypeVarS id ≠ "any" := by
  intro h
  have hdata : (idToTypeVarS id).data = "any".data := by rw [h]
  have hmem : 'a' ∈ (idToTypeVarS id).data := by
    rw [hdata]; decide
  have hle := idToTypeVarS_chars_le id 'a' hmem
  have h97 : ('a').toNat = 97 := by decide
  omega

theorem bump_keys (l : List (Nat × Nat)) (id : Nat) :
    (bump l id).map Prod.fst =
      if id ∈ l.map Prod.fst then l.map Prod.fst else l.map Prod.fst ++ [id] := by
  induction l with
  | nil => simp [bump]
  | cons kv rest ih =>
    obtain ⟨k, v⟩ := kv
    by_cases hk : k = id
    · subst hk
      simp [bump]
    · rw [bump]
      rw [if_neg hk]
      simp only [List.map_cons, List.mem_cons]
      rw [ih]
      by_cases hmem : id ∈ rest.map Prod.fst
      · rw [if_pos hmem, if_pos (Or.inr hmem)]
      · rw [if_neg hmem, if_neg (by push_neg; exact ⟨fun h => hk h.symm, hmem⟩)]
        simp

theorem bump_nodup {l : List (Nat × Nat)} (h : (l.map Prod.fst).Nodup) (id : Nat) :
    ((bump l id).map Prod.fst).Nodup := by
  rw [bump_keys]
  by_cases hmem : id ∈ l.map Prod.fst
  · rwa [if_pos hmem]
  · rw [if_neg hmem]
    simp [List.nodup_append, h, hmem]

theorem genericIds_nodup :
    ∀ N : Nat,
      (∀ (t : Ty) (ids : List (Nat × Nat)), sizeOf t ≤ N →
        (ids.map Prod.fst).Nodup → ((genericIdsT t ids).map Prod.fst).Nodup) ∧
      (∀ (tv : TyVar) (ids : List (Nat × Nat)), sizeOf tv ≤ N →
        (ids.map Prod.fst).Nodup → ((genericIdsV tv ids).map Prod.fst).Nodup) ∧
      (∀ (l : List Ty) (ids : List (Nat × Nat)), sizeOf l ≤ N →
        (ids.map Prod.fst).Nodup → ((genericIdsL l ids).map Prod.fst).Nodup) := by
  intro N
  induction N with
  | zero =>
    refine ⟨fun t ids ht _ => absurd ht ?_, fun tv ids ht _ => absurd ht ?_,
      fun l ids ht _ => absurd ht ?_⟩
    · cases t <;> simp_arith
    · cases tv <;> simp_arith
    · cases l <;> simp_arith
  | succ N ih =>
    obtain ⟨ihT, ihV, ihL⟩ := ih
    refine ⟨fun t ids ht hn => ?_, fun tv ids ht hn => ?_, fun l ids ht hn => ?_⟩
    · cases t with
      | var tv => rw [genericIdsT]; exact ihV tv ids (by simp_arith at ht ⊢; omega) hn
      | app name module args =>
        rw [genericIdsT]; exact ihL args ids (by simp_arith at ht ⊢; omega) hn
      | fn args retrn =>
        rw [genericIdsT]
        exact ihT retrn _ (by simp_arith at ht ⊢; omega)
          (ihL args ids (by simp_arith at ht ⊢; omega) hn)
      | tuple elems => rw [genericIdsT]; exact ihL elems ids (by simp_arith at ht ⊢; omega) hn
    · cases tv with
      | generic id => rw [genericIdsV]; exact bump_nodup hn id
      | unbound id => rw [genericIdsV]; exact hn
      | link t => rw [genericIdsV]; exact ihT t ids (by simp_arith at ht ⊢; omega) hn
    · cases l with
      | nil => rw [genericIdsL]; exact hn
      | cons t ts =>
        rw [genericIdsL]
        exact ihL ts _ (by simp_arith at ht ⊢; omega)
          (ihT t ids (by simp_arith at ht ⊢; omega) hn)

theorem collect_generic_usages_nodup (types : List Ty) :
    ((collect_generic_usages [] types).map Prod.fst).Nodup := by
  rw [collect_generic_usages]
  exact (genericIds_nodup (sizeOf types)).2.2 types [] le_rfl (by simp)

theorem lookupUsage_mem {l : List (Nat × Nat)} {id n : Nat}
    (h : lookupUsage l id = some n) : (id, n) ∈ l := by
  induction l with
  | nil => simp [lookupUsage] at h
  | cons kv rest ih =>
    obtain ⟨k, v⟩ := kv
    rw [lookupUsage] at h
    by_cases hk : k = id
    · rw [if_pos hk] at h
      subst hk
      simp at h
      simp [h]
    · rw [if_neg hk] at h
      exact List.mem_cons_of_mem _ (ih h)

theorem mem_unique_of_nodup_keys {l : List (Nat × Nat)} {id a b : Nat}
    (hn : (l.map Prod.fst).Nodup) (ha : (id, a) ∈ l) (hb : (id, b) ∈ l) : a = b := by
  induction l with
  | nil => simp at ha
  | cons kv rest ih =>
    obtain ⟨k, v⟩ := kv
    simp only [List.map_cons, List.nodup_cons] at hn
    rcases List.mem_cons.mp ha with h1 | h1 <;> rcases List.mem_cons.mp hb with h2 | h2
    · rw [Prod.mk.injEq] at h1 h2
      omega
    · exfalso
      rw [Prod.mk.injEq] at h1
      exact hn.1 (h1.1 ▸ (List.mem_map.mpr ⟨(id, b), h2, rfl⟩))
    · exfalso
      rw [Prod.mk.injEq] at h2
      exact hn.1 (h2.1 ▸ (List.mem_map.mpr ⟨(id, a), h1, rfl⟩))
    · exact ih hn.2 h1 h2

theorem print_var_generic_eq (cm : List String) (id : Nat) (us : List (Nat × Nat)) :
    print_var cm (.generic id) (some us) =
      match lookupUsage us id with
      | some 0 => some Doc.nil
      | some 1 => some (Doc.str "any")
      | _ => some (id_to_type_var id) := by
  rw [print_var]

theorem print_var_generic_none (cm : List String) (id : Nat) :
    print_var cm (.generic id) none = some (id_to_type_var id) := by
  rw [print_var]

theorem not_mem_of_getLast {s : String} {c : Char} (hs : s.data.getLast? = some c)
    {L : List String} (hL : ∀ w ∈ L, w.data.getLast? ≠ some c) : s ∉ L :=
  fun hmem => hL s hmem hs

theorem append_getLast (s t : String) (c : Char) (ht : t.data = [c]) :
    (s ++ t).data.getLast? = some c := by
  rw [String.data_append, ht]
  exact List.getLast?_concat _

theorem ts_safe_type_name_not_reserved (name : String) :
    ts_safe_type_name name ∉ tsReservedWords := by
  rw [ts_safe_type_name]
  by_cases h1 : name ∈ tsReservedWords
  · rw [if_pos h1]
    exact not_mem_of_getLast (append_getLast name "_" '_' rfl) (by decide)
  · rw [if_neg h1, maybe_escape_identifier_string]
    by_cases h2 : name ∈ jsReservedWords
    · rw [if_pos h2]
      exact not_mem_of_getLast (append_getLast name "$" '$' rfl) (by decide)
    · rwa [if_neg h2]

theorem print_prelude_type_isSome {cm : List String} {name : String} {args : List Ty}
    {gus : Option (List (Nat × Nat))} (h : name ∈ builtinNames)
    (hargs : (doPrintList cm args gus).isSome = true) :
    (print_prelude_type cm name args gus).isSome = true := by
  obtain ⟨ds, hds⟩ := Option.isSome_iff_exists.mp hargs
  rw [print_prelude_type]
  simp only [builtinNames, List.mem_cons, List.not_mem_nil, or_false] at h
  rcases h with rfl | rfl | rfl | rfl | rfl | rfl | rfl | rfl | rfl <;> simp [hds]

theorem print_type_app_isSome {cm : List String} {name : String} {args : List Ty}
    {module : List String} {gus : Option (List (Nat × Nat))}
    (hargs : (doPrintList cm args gus).isSome = true) :
    (print_type_app cm name args module gus).isSome = true := by
  obtain ⟨ds, hds⟩ := Option.isSome_iff_exists.mp hargs
  rw [print_type_app]
  by_cases he : args.isEmpty <;> simp [he, hds]

theorem builtins_isSome (cm : List String) (gus : Option (List (Nat × Nat))) :
    ∀ N : Nat,
      (∀ t : Ty, sizeOf t ≤ N → builtinsOkT t = true → (do_print cm t gus).isSome = true) ∧
      (∀ tv : TyVar, sizeOf tv ≤ N → builtinsOkV tv = true →
        (print_var cm tv gus).isSome = true) ∧
      (∀ l : List Ty, sizeOf l ≤ N → builtinsOkL l = true →
        (doPrintList cm l gus).isSome = true) := by
  intro N
  induction N with
  | zero =>
    refine ⟨fun t ht _ => absurd ht ?_, fun tv ht _ => absurd ht ?_,
      fun l ht _ => absurd ht ?_⟩
    · cases t <;> simp_arith
    · cases tv <;> simp_arith
    · cases l <;> simp_arith
  | succ N ih =>
    obtain ⟨ihT, ihV, ihL⟩ := ih
    refine ⟨fun t ht hok => ?_, fun tv ht hok => ?_, fun l ht hok => ?_⟩
    · cases t with
      | var tv =>
        rw [do_print]
        rw [builtinsOkT] at hok
        exact ihV tv (by simp_arith at ht ⊢; omega) hok
      | app name module args =>
        rw [do_print]
        rw [builtinsOkT] at hok
        simp only [Bool.and_eq_true] at hok
        have hargs : (doPrintList cm args gus).isSome = true :=
          ihL args (by simp_arith at ht ⊢; omega) hok.2
        by_cases hm : module.isEmpty
        · rw [if_pos hm]
          rw [if_pos hm] at hok
          exact print_prelude_type_isSome (by simpa using hok.1) hargs
        · rw [if_neg hm]
          exact print_type_app_isSome hargs
      | fn args retrn =>
        rw [do_print, print_fn]
        rw [builtinsOkT] at hok
        simp only [Bool.and_eq_true] at hok
        obtain ⟨ds, hds⟩ := Option.isSome_iff_exists.mp
          (ihL args (by simp_arith at ht ⊢; omega) hok.1)
        obtain ⟨d, hd⟩ := Option.isSome_iff_exists.mp
          (ihT retrn (by simp_arith at ht ⊢; omega) hok.2)
        rw [hds, hd]
        rfl
      | tuple elems =>
        rw [do_print]
        rw [builtinsOkT] at hok
        obtain ⟨ds, hds⟩ := Option.isSome_iff_exists.mp
          (ihL elems (by simp_arith at ht ⊢; omega) hok)
        rw [hds]
        rfl
    · cases tv with
      | generic id =>
        cases gus with
        | none => rw [print_var_generic_none]; rfl
        | some us =>
          rw [print_var_generic_eq]
          cases lookupUsage us id with
          | none => rfl
          | some n => cases n with
            | zero => rfl
            | succ n => cases n <;> rfl
      | unbound id => rw [print_var]; rfl
      | link t =>
        rw [print_var]
        rw [builtinsOkV] at hok
        exact ihT t (by simp_arith at ht ⊢; omega) hok
    · cases l with
      | nil => rw [doPrintList]; rfl
      | cons t ts =>
        rw [doPrintList]
        rw [builtinsOkL] at hok
        simp only [Bool.and_eq_true] at hok
        obtain ⟨d, hd⟩ := Option.isSome_iff_exists.mp
          (ihT t (by simp_arith at ht ⊢; omega) hok.1)
        obtain ⟨ds, hds⟩ := Option.isSome_iff_exists.mp
          (ihL ts (by simp_arith at ht ⊢; omega) hok.2)
        rw [hd, hds]
        rfl

theorem print_prelude_type_none {cm : List String} {name : String} {args : List Ty}
    {gus : Option (List (Nat × Nat))} (h : name ∉ builtinNames) :
    print_prelude_type cm name args gus = none := by
  rw [print_prelude_type]
  simp only [builtinNames, List.mem_cons, List.not_mem_nil, or_false, not_or] at h
  obtain ⟨h1, h2, h3, h4, h5, h6, h7, h8, h9⟩ := h
  rw [if_neg h1, if_neg (not_or.mpr ⟨h2, h3⟩), if_neg h4, if_neg h5, if_neg h6, if_neg h7,
    if_neg h8, if_neg h9]

theorem id_to_type_var_injective : Function.Injective id_to_type_var := by
  intro i j h
  rw [id_to_type_var, id_to_type_var, Doc.str.injEq] at h
  exact idToTypeVarS_inj h

theorem foldl_append_replicate (s : String) (n : Nat) :
    ∀ acc : String,
      List.foldl (fun r t => r ++ t) acc (List.replicate n s) = acc ++ strRepeat s n := by
  induction n with
  | zero =>
    intro acc
    rw [strRepeat]
    apply String.ext
    rw [String.data_append]
    simp [List.replicate]
  | succ n ih =>
    intro acc
    rw [List.replicate_succ, List.foldl_cons, ih, strRepeat]
    apply String.ext
    simp [String.data_append]

theorem strRepeat_eq_join (s : String) (n : Nat) :
    strRepeat s n = String.join (List.replicate n s) := by
  have h := foldl_append_replicate s n ""
  have hj : String.join (List.replicate n s) =
      List.foldl (fun r t => r ++ t) "" (List.replicate n s) := rfl
  rw [hj, h]
  apply String.ext
  rw [String.data_append]
  rfl

/-- C5: the type-variable namer is a deterministic injection: distinct ids
receive distinct names (in particular on any range 0..N), the same id
always receives the same name (it is a pure function of the id), and the
concrete anchors hold: id 0 maps to `A`, 25 to `Z`, 26 to `AA`. -/
theorem claim_C5_id_to_type_var_injective :
    (∀ i j : Nat, i ≠ j → id_to_type_var i ≠ id_to_type_var j) ∧
    id_to_type_var 0 = Doc.str "A" ∧ id_to_type_var 25 = Doc.str "Z" ∧
    id_to_type_var 26 = Doc.str "AA" := by
  refine ⟨fun i j hne heq => hne (id_to_type_var_injective heq), ?_, ?_, ?_⟩
  · simp [id_to_type_var, idToTypeVarS]
  · simp [id_to_type_var, idToTypeVarS]
  · simp [id_to_type_var, idToTypeVarS, loopChars]

theorem claim_C5_witness : id_to_type_var 0 ≠ id_to_type_var 1 :=
  claim_C5_id_to_type_var_injective.1 0 1 (by omega)

/-- C3 counterexample: with a usage table supplied, an id absent from the
table does not render as the neutral placeholder; it renders via the
type-variable namer (id 5 with table `{1 ↦ 2}` renders as `F`). -/
theorem claim_C3_counterexample :
    print_var [] (.generic 5) (some [(1, 2)]) = some (Doc.str "F") ∧
    Doc.str "F" ≠ Doc.nil ∧ Doc.str "F" ≠ Doc.str "any" := by
  refine ⟨?_, by decide, by decide⟩
  rw [print_var_generic_eq]
  simp [lookupUsage, id_to_type_var, idToTypeVarS]

/-- C3 (amended): when a usage table is supplied, an id present with count
0 renders as the neutral placeholder (empty document), an id with count 1
renders as `any`, and an id with count at least 2 or absent from the table
renders via the type-variable namer; with no usage table every id renders
via the namer. -/
theorem claim_C3_print_var_amended (cm : List String) (id : Nat) (us : List (Nat × Nat)) :
    (lookupUsage us id = some 0 → print_var cm (.generic id) (some us) = some Doc.nil) ∧
    (lookupUsage us id = some 1 → print_var cm (.generic id) (some us) = some (Doc.str "any")) ∧
    (∀ n, lookupUsage us id = some n → 2 ≤ n →
      print_var cm (.generic id) (some us) = some (id_to_type_var id)) ∧
    (lookupUsage us id = none → print_var cm (.generic id) (some us) = some (id_to_type_var id)) ∧
    print_var cm (.generic id) none = some (id_to_type_var id) := by
  refine ⟨fun h => ?_, fun h => ?_, fun n h h2 => ?_, fun h => ?_,
    print_var_generic_none cm id⟩
  · rw [print_var_generic_eq, h]
  · rw [print_var_generic_eq, h]
  · rw [print_var_generic_eq, h]
    rcases n with _ | _ | m
    · omega
    · omega
    · rfl
  · rw [print_var_generic_eq, h]

theorem claim_C3_witness :
    print_var [] (.generic 0) (some [(0, 1)]) = some (Doc.str "any") :=
  (claim_C3_print_var_amended [] 0 [(0, 1)]).2.1 rfl

/-- C7: the type-name safety function is idempotent on already-safe names
(names it leaves unchanged), and its result is never one of the reserved
words in its fixed list, for every input string. -/
theorem claim_C7_ts_safe_type_name (name : String) :
    (ts_safe_type_name name = name →
      ts_safe_type_name (ts_safe_type_name name) = ts_safe_type_name name) ∧
    ts_safe_type_name name ∉ tsReservedWords :=
  ⟨fun h => by rw [h, h], ts_safe_type_name_not_reserved name⟩

theorem claim_C7_witness :
    ts_safe_type_name (ts_safe_type_name "shape") = ts_safe_type_name "shape" :=
  (claim_C7_ts_safe_type_name "shape").1 (by decide)

/-- C9: the prelude dispatcher fails (modelled as `none`, the Rust panic)
whenever an empty-module `App` type's name lies outside the fixed builtin
set; under the precondition that every builtin name occurring in a type
lies in that set, printing the type cannot reach the failure arm; and an
`Unbound` type variable does not fail but defensively renders as `any`. -/
theorem claim_C9_prelude_dispatch (cm : List String) (gus : Option (List (Nat × Nat))) :
    (∀ name args, name ∉ builtinNames → print_prelude_type cm name args gus = none) ∧
    (∀ t : Ty, builtinsOkT t = true → (do_print cm t gus).isSome = true) ∧
    (∀ uid, print_var cm (.unbound uid) gus = some (Doc.str "any")) := by
  refine ⟨fun name args h => print_prelude_type_none h,
    fun t hok => (builtins_isSome cm gus (sizeOf t)).1 t le_rfl hok,
    fun uid => by rw [print_var]⟩

theorem claim_C9_witness :
    print_prelude_type [] "Foo" [] none = none ∧
    (do_print [] (.app "Int" [] []) none).isSome = true :=
  ⟨(claim_C9_prelude_dispatch [] none).1 "Foo" [] (by decide),
   (claim_C9_prelude_dispatch [] none).2.1 (.app "Int" [] [])
     (by rw [builtinsOkT, builtinsOkL]; simp [builtinNames])⟩

/-- C10: a public module constant's type is printed without a usage table:
the emitted declaration is exactly the constant head followed by the
no-table translation of the value's type (so it carries no generic
parameter list), and under the no-table translation every `Generic{id}`
renders as its namer-derived name, which is never the collapsed `any`. -/
theorem claim_C10_module_constant (cm : List String) (name : String) (valueType : Ty) :
    module_constant cm name valueType =
      (match do_print cm valueType none with
       | some d => some (concatD
           [Doc.str "export const ", maybe_escape_identifier_doc name,
            Doc.str ": ", d, Doc.str ";"])
       | none => none) ∧
    (∀ id, print_var cm (.generic id) none = some (id_to_type_var id)) ∧
    (∀ id, id_to_type_var id ≠ Doc.str "any") := by
  refine ⟨rfl, fun id => print_var_generic_none cm id, fun id h => idToTypeVarS_ne_any id ?_⟩
  rw [id_to_type_var, Doc.str.injEq] at h
  exact h

/-- C1: the claim of run-to-run determinism fails on the code.  The
generic-parameter list of a function declaration is produced by iterating
the usage `HashMap`, whose iteration order is arbitrary (randomly seeded
per process in Rust): two valid enumerations of the same usage table, both
permutations of each other carrying the same counts as the collected
table, yield different output documents for the same typed function
(`<A, B>` versus `<B, A>`). -/
theorem claim_C1_generic_order_dependent :
    [((0 : Nat), (2 : Nat)), (1, 2)].Perm [(1, 2), (0, 2)] ∧
    collect_generic_usages []
        (Ty.var (.generic 1) ::
          ([⟨some "x", Ty.var (.generic 0)⟩, ⟨some "y", Ty.var (.generic 0)⟩,
            (⟨some "z", Ty.var (.generic 1)⟩ : TypedArg)].map (fun a => a.type_))) =
      [(1, 2), (0, 2)] ∧
    module_function_ordered [] [(0, 2), (1, 2)] "f"
        [⟨some "x", .var (.generic 0)⟩, ⟨some "y", .var (.generic 0)⟩,
         ⟨some "z", .var (.generic 1)⟩] (.var (.generic 1)) ≠
      module_function_ordered [] [(1, 2), (0, 2)] "f"
        [⟨some "x", .var (.generic 0)⟩, ⟨some "y", .var (.generic 0)⟩,
         ⟨some "z", .var (.generic 1)⟩] (.var (.generic 1)) := by
  refine ⟨by decide, ?_, ?_⟩
  · simp [collect_generic_usages, genericIdsL, genericIdsT, genericIdsV, bump]
  · simp [module_function_ordered, fnGenericNames, fnArgDoc, optList, do_print, print_var,
      lookupUsage, id_to_type_var, idToTypeVarS, maybe_escape_identifier_doc,
      maybe_escape_identifier_string, jsReservedWords, List.enum, wrap_args, wrap_generic_args,
      concatD, Doc.surroundD]

/-- C2: over the usage table collected from `[return type] ++ argument
types`, a generic id with count 1 renders as `any` at its occurrence and
contributes no entry to the declaration's generic-parameter name list,
while an id with count at least 2 renders as its namer-derived name at
every occurrence and appears exactly once in that list. -/
theorem claim_C2_fn_generic_usage (cm : List String) (argTys : List Ty) (retrn : Ty)
    (id n : Nat)
    (h : lookupUsage (collect_generic_usages [] (retrn :: argTys)) id = some n) :
    (n = 1 →
      print_var cm (.generic id) (some (collect_generic_usages [] (retrn :: argTys))) =
        some (Doc.str "any") ∧
      (fnGenericNames (collect_generic_usages [] (retrn :: argTys))).count
        (id_to_type_var id) = 0) ∧
    (2 ≤ n →
      print_var cm (.generic id) (some (collect_generic_usages [] (retrn :: argTys))) =
        some (id_to_type_var id) ∧
      (fnGenericNames (collect_generic_usages [] (retrn :: argTys))).count
        (id_to_type_var id) = 1) := by
  have hnodup := collect_generic_usages_nodup (retrn :: argTys)
  have hmem := lookupUsage_mem h
  constructor
  · rintro rfl
    refine ⟨by rw [print_var_generic_eq, h], ?_⟩
    rw [fnGenericNames, List.count_eq_zero]
    intro hcmem
    obtain ⟨p, hp, hpe⟩ := List.mem_map.mp hcmem
    obtain ⟨pid, pc⟩ := p
    have hid : pid = id := id_to_type_var_injective hpe
    subst hid
    have hpl := List.mem_filter.mp hp
    have hcount : pc = 1 := mem_unique_of_nodup_keys hnodup hpl.1 hmem
    have hgt : (1 : Nat) < pc := by simpa using hpl.2
    omega
  · intro h2
    refine ⟨?_, ?_⟩
    · rw [print_var_generic_eq, h]
      rcases n with _ | _ | m
      · omega
      · omega
      · rfl
    · rw [fnGenericNames]
      have hmapeq :
          ((collect_generic_usages [] (retrn :: argTys)).filter (fun p => 1 < p.2)).map
              (fun p => id_to_type_var p.1) =
            (((collect_generic_usages [] (retrn :: argTys)).filter (fun p => 1 < p.2)).map
              Prod.fst).map id_to_type_var := by
        rw [List.map_map]
        rfl
      rw [hmapeq, List.count_map_of_injective _ _ id_to_type_var_injective]
      apply List.count_eq_one_of_mem
      · exact List.Nodup.sublist (List.Sublist.map _ (List.filter_sublist _)) hnodup
      · exact List.mem_map.mpr ⟨(id, n), List.mem_filter.mpr ⟨hmem, by simpa using h2⟩, rfl⟩

theorem claim_C2_witness :
    print_var [] (.generic 0)
        (some (collect_generic_usages [] [Ty.var (.generic 0), Ty.var (.generic 0)])) =
      some (id_to_type_var 0) ∧
    (fnGenericNames (collect_generic_usages [] [Ty.var (.generic 0), Ty.var (.generic 0)])).count
        (id_to_type_var 0) = 1 :=
  (claim_C2_fn_generic_usage [] [Ty.var (.generic 0)] (Ty.var (.generic 0)) 0 2
      (by simp [collect_generic_usages, genericIdsL, genericIdsV, genericIdsT, bump,
        lookupUsage])).2
    (by omega)

/-- C4 counterexample: the trailing union declaration's name is not
safety-escaped.  For a custom type named "type" the emitted union is named
`type$` although the safety-escaped, suffixed name would be `type_$`. -/
theorem claim_C4_counterexample :
    (custom_type_definition [] "type" [] [⟨"Circle", []⟩] false).getLast? =
      some (some (concatD
        [Doc.str "export type ",
         name_with_generics (Doc.str ("type" ++ "$")) [],
         Doc.str " = ",
         concatD (List.intersperse (Doc.brk "| " " | ")
           ([(⟨"Circle", []⟩ : RecordConstructor)].map (fun x =>
             name_with_generics (maybe_escape_identifier_doc x.name)
               (x.arguments.map (fun a => a.type_))))),
         Doc.str ";"])) ∧
    ts_safe_type_name "type" ++ "$" = "type_$" ∧
    "type" ++ "$" ≠ ts_safe_type_name "type" ++ "$" := by
  refine ⟨?_, by decide, by decide⟩
  rw [custom_type_definition]
  exact List.getLast?_concat _

/-- C4 (amended): a public custom type emits one declaration per
constructor plus one trailing union declaration whose name is the custom
type's name suffixed with the fixed `$` marker (without safety-escaping),
equal to the alternation of the constructors' generic-applied names. -/
theorem claim_C4_custom_type_shape (cm : List String) (name : String)
    (typed_parameters : List Ty) (constructors : List RecordConstructor) (opaq : Bool) :
    (custom_type_definition cm name typed_parameters constructors opaq).length =
      constructors.length + 1 ∧
    (custom_type_definition cm name typed_parameters constructors opaq).dropLast =
      constructors.map (fun c => record_definition cm c opaq) ∧
    (custom_type_definition cm name typed_parameters constructors opaq).getLast? =
      some (some (concatD
        [Doc.str "export type ",
         name_with_generics (Doc.str (name ++ "$")) typed_parameters,
         Doc.str " = ",
         concatD (List.intersperse (Doc.brk "| " " | ")
           (constructors.map (fun x =>
             name_with_generics (maybe_escape_identifier_doc x.name)
               (x.arguments.map (fun a => a.type_))))),
         Doc.str ";"])) := by
  refine ⟨?_, ?_, ?_⟩
  · rw [custom_type_definition]
    simp
  · rw [custom_type_definition]
    exact List.dropLast_concat
  · rw [custom_type_definition]
    exact List.getLast?_concat _

/-- C6: `import_path` computes exactly the relative path the claim states:
same or empty package gives `./{path}.d.ts` for a single-segment current
module and `../` repeated (segments - 1) times otherwise; a different
package walks up (segments + 1) levels and down into
`{package}/dist/{path}.d.ts`. -/
theorem claim_C6_import_path (curPkg : String) (curMod : List String)
    (package : String) (module : List String) :
    import_path curPkg curMod package module =
      if package = curPkg ∨ package = "" then
        if curMod.length = 1 then
          "./" ++ String.intercalate "/" module ++ ".d.ts"
        else
          String.join (List.replicate (curMod.length - 1) "../") ++
            String.intercalate "/" module ++ ".d.ts"
      else
        String.join (List.replicate (curMod.length + 1) "../") ++ package ++ "/dist/" ++
          String.intercalate "/" module ++ ".d.ts" := by
  rw [import_path]
  by_cases h : package = curPkg ∨ package = ""
  · rw [if_pos h, if_pos h]
    rcases hn : curMod.length with _ | _ | m
    · simp [strRepeat_eq_join]
    · simp
    · simp [strRepeat_eq_join]
  · rw [if_neg h, if_neg h, ← strRepeat_eq_join]

/-- C8: a non-public statement of any kind (function, type alias, custom
type, external type, module constant, external function) emits zero output
declarations, leaves the prelude-used flag unchanged, and leaves the whole
registry of imports unchanged. -/
theorem claim_C8_non_public (cm : List String) (flag : Bool) (curPkg : String)
    (imps : Imports) :
    (∀ name args ret, statementRun cm flag (.Fn false name args ret) = ([], flag) ∧
      collect_imports_step curPkg cm imps (.Fn false name args ret) = imps) ∧
    (∀ aliasName t, statementRun cm flag (.TypeAlias false aliasName t) = ([], flag) ∧
      collect_imports_step curPkg cm imps (.TypeAlias false aliasName t) = imps) ∧
    (∀ name params ctors opq,
      statementRun cm flag (.CustomType false name params ctors opq) = ([], flag) ∧
      collect_imports_step curPkg cm imps (.CustomType false name params ctors opq) = imps) ∧
    (∀ name args, statementRun cm flag (.ExternalType false name args) = ([], flag) ∧
      collect_imports_step curPkg cm imps (.ExternalType false name args) = imps) ∧
    (∀ name t, statementRun cm flag (.ModuleConstant false name t) = ([], flag) ∧
      collect_imports_step curPkg cm imps (.ModuleConstant false name t) = imps) ∧
    (∀ name args ret, statementRun cm flag (.ExternalFn false name args ret) = ([], flag) ∧
      collect_imports_step curPkg cm imps (.ExternalFn false name args ret) = imps) := by
  refine ⟨fun name args ret => ⟨?_, rfl⟩, fun aliasName t => ⟨?_, rfl⟩,
    fun name params ctors opq => ⟨?_, rfl⟩, fun name args => ⟨?_, rfl⟩,
    fun name t => ⟨?_, rfl⟩, fun name args ret => ⟨?_, rfl⟩⟩ <;>
    simp [statementRun, statementDecls, statementPreludeContrib]
